import Mathlib

/-!  Verification of the MostPopular outlier-finder scan pipeline (app.py).

Shallow embedding: the SQLite tables `videos_cache` / `channels_cache`
become insertion-ordered association lists (`Dict`), the YouTube API
wrappers become oracles returning `Except HErr`, timestamps become
rationals (epoch seconds, the value `datetime.timestamp()` yields), and
the module-level Streamlit scan becomes the function `runScan`.
`datetime.fromisoformat` on a publish timestamp is an oracle `parseTs`.
Python floats are modelled as rationals; `round(x, 2)` on the two display
fields is display-only rounding and is omitted (the unrounded quotient is
stored).  Remote pagination and the 50-id request chunking are internal
to the fetch helpers and are folded into each oracle's single answer.
-/

set_option maxHeartbeats 1000000

namespace App

/-- Association list keyed by `String`, modelling both a Python `dict`
(insertion-ordered) and an SQLite table in rowid order. -/
abbrev Dict (α : Type) : Type := List (String × α)

/-- First-match lookup, i.e. Python `d.get(k)` / `SELECT ... WHERE key = k`. -/
def dlookup {α : Type} : Dict α → String → Option α
  | [], _ => none
  | p :: rest, k => if p.1 = k then some p.2 else dlookup rest k

/-- Python `k in d`. -/
def containsKey {α : Type} : Dict α → String → Bool
  | [], _ => false
  | p :: rest, k => if p.1 = k then true else containsKey rest k

/-- Python dict assignment `d[k] = v`, and also SQLite
`INSERT ... ON CONFLICT DO UPDATE`: replace in place when the key is
present (keeping its position / rowid), append otherwise. -/
def upsertKV {α : Type} (m : Dict α) (k : String) (v : α) : Dict α :=
  if containsKey m k then m.map (fun p => if p.1 = k then (k, v) else p)
  else m ++ [(k, v)]

/-- Insert-or-replace a sequence of entries in order, left to right:
the shape shared by `executemany(... ON CONFLICT DO UPDATE ...)` and by
Python's dict-building loops. -/
def upsertList {α β : Type} (key : β → String) (val : β → α) : List β → Dict α → Dict α
  | [], T => T
  | b :: rest, T => upsertList key val rest (upsertKV T (key b) (val b))

/-- Python `{**a, **b}`. -/
def dictUnion {α : Type} (a b : Dict α) : Dict α :=
  upsertList Prod.fst Prod.snd b a

/-- Last element of `l` whose key is `k` (SQLite upsert semantics: the
final value written for a primary key). -/
def lastBy? {β : Type} (key : β → String) : List β → String → Option β
  | [], _ => none
  | b :: rest, k =>
    match lastBy? key rest k with
    | some r => some r
    | none => if key b = k then some b else none

/-- Python `list(dict.fromkeys(l))`: first-seen-order deduplication,
written as the insertion loop that builds the dict. -/
def dedupAcc (acc : List String) : List String → List String
  | [] => acc
  | x :: xs => if x ∈ acc then dedupAcc acc xs else dedupAcc (acc ++ [x]) xs

def dedupFirst (l : List String) : List String := dedupAcc [] l

/-- Value of a digit string, as Python `int` reads it. -/
def digitsVal (ds : List Char) : Nat :=
  ds.foldl (fun a c => a * 10 + (c.toNat - 48)) 0

/-- One optional group `(?:(\d+)X)?` of `DUR_RE`, matched greedily at the
head of `cs`; yields the group value (`int(m.group(i) or 0)`, so 0 when
the group did not participate) and the remaining input.  Greedy maximal
digit runs are faithful to the regex engine here because each group's
trailing letter is not a digit, so no backtracking into the digit run can
ever succeed. -/
def durGroup (letter : Char) (cs : List Char) : Nat × List Char :=
  let ds := cs.takeWhile Char.isDigit
  let rest := cs.dropWhile Char.isDigit
  if ds.isEmpty then (0, cs)
  else
    match rest with
    | c :: rest2 => if c = letter then (digitsVal ds, rest2) else (0, cs)
    | [] => (0, cs)

/-- `iso_duration_to_seconds` (app.py 46-53):
`DUR_RE = re.compile(r"PT(?:(\d+)H)?(?:(\d+)M)?(?:(\d+)S)?")` applied
with `fullmatch(d or "")`; a failed match yields 0, otherwise
`h * 3600 + mi * 60 + s`. -/
def iso_duration_to_seconds (d : String) : Nat :=
  match d.data with
  | 'P' :: 'T' :: cs =>
    let g1 := durGroup 'H' cs
    let g2 := durGroup 'M' g1.2
    let g3 := durGroup 'S' g2.2
    if g3.2.isEmpty then g1.1 * 3600 + g2.1 * 60 + g3.1 else 0
  | _ => 0

/-- `age_days` (app.py 55-58): elapsed days since `published_at`, floored
at 0.1.  `parseTs` models `datetime.fromisoformat(...).timestamp()`. -/
def age_days (parseTs : String → ℚ) (now : ℚ) (published_at : String) : ℚ :=
  max ((now - parseTs published_at) / 86400) (1 / 10)

/-- A `googleapiclient` `HttpError`: response status (403 quota exceeded,
404 invalid category, ...), the exception text `str(e)` and the decoded
response body.  Every `except HttpError` clause in app.py catches all of
these alike, whatever the status. -/
structure HErr where
  status : Nat
  text : String
  body : String
deriving DecidableEq

/-- `http_error_text` (app.py 71-76): the raw diagnostic
`f"{e}\n\n{body}"` shown to the user. -/
def http_error_text (e : HErr) : String := e.text ++ "\n\n" ++ e.body

/-- One video record as passed around the pipeline.  Both the dict built
by `fetch_videos_api` (app.py 269-278) and the dict rebuilt from a cache
row by `get_cached_videos` (app.py 132-141) have exactly these keys:
`.get("views", 0)` / NULL-views and `.get("duration_iso", "")` defaults
are already folded into the field types. -/
structure Video where
  videoId : String
  title : String
  channelId : String
  channelTitle : String
  publishedAt : String
  views : ℤ
  duration_iso : String
  thumbnail : Option String
deriving DecidableEq

/-- A `videos_cache` row minus its primary key.  `fetched_at` is the
parsed epoch-seconds value of the stored ISO timestamp (the row is
always written by `now_utc_iso()`, which parses back cleanly). -/
structure Row where
  title : String
  channel_id : String
  channel_title : String
  published_at : String
  views : ℤ
  duration_iso : String
  thumbnail : Option String
  fetched_at : ℚ
deriving DecidableEq

/-- The SQLite database: `videos_cache` and `channels_cache`, keyed by
primary key.  A `channels_cache` row is (subs, fetched_at); `none` subs
is a legitimate stored value (the channel hides its count). -/
structure CacheState where
  videos : Dict Row
  channels : Dict (Option ℤ × ℚ)
deriving DecidableEq

/-- Rebuild the pipeline dict from a cache row (app.py 132-141). -/
def rowToVideo (k : String) (r : Row) : Video :=
  { videoId := k, title := r.title, channelId := r.channel_id,
    channelTitle := r.channel_title, publishedAt := r.published_at,
    views := r.views, duration_iso := r.duration_iso, thumbnail := r.thumbnail }

/-- `get_cached_videos` (app.py 111-142): select the requested ids and
keep a row iff `ts >= now - max_age_hours * 3600`.  The function only
reads (`SELECT`), so it returns a value and leaves the state untouched;
stale rows stay in storage. -/
def get_cached_videos (σ : CacheState) (ids : List String) (max_age_hours : ℤ) (now : ℚ) :
    Dict Video :=
  σ.videos.filterMap (fun p =>
    if p.1 ∈ ids ∧ now - (max_age_hours : ℚ) * 3600 ≤ p.2.fetched_at then
      some (p.1, rowToVideo p.1 p.2)
    else none)

/-- The row written for one fetched item (app.py 160-172), stamped with
`now_utc_iso()`. -/
def itemToRow (it : Video) (now : ℚ) : Row :=
  { title := it.title, channel_id := it.channelId, channel_title := it.channelTitle,
    published_at := it.publishedAt, views := it.views, duration_iso := it.duration_iso,
    thumbnail := it.thumbnail, fetched_at := now }

/-- `upsert_videos_cache` (app.py 144-174): insert-or-replace each item
by `video_id`, refreshing `fetched_at` to the current time. -/
def upsert_videos_cache (σ : CacheState) (items : List Video) (now : ℚ) : CacheState :=
  { σ with videos := upsertList Video.videoId (fun it => itemToRow it now) items σ.videos }

/-- `get_cached_subs` (app.py 176-197): same freshness contract as the
video read, on `channels_cache`. -/
def get_cached_subs (σ : CacheState) (ids : List String) (max_age_hours : ℤ) (now : ℚ) :
    Dict (Option ℤ) :=
  σ.channels.filterMap (fun p =>
    if p.1 ∈ ids ∧ now - (max_age_hours : ℚ) * 3600 ≤ p.2.2 then some (p.1, p.2.1)
    else none)

/-- `upsert_channels_cache` (app.py 199-211). -/
def upsert_channels_cache (σ : CacheState) (items : Dict (Option ℤ)) (now : ℚ) : CacheState :=
  { σ with channels := upsertList Prod.fst (fun p => (p.2, now)) items σ.channels }

/-- One remote call issued by the pipeline; `chart` is a
`most_popular_video_ids` invocation, `videos` / `channels` an invocation
of `fetch_videos_api` / `fetch_channels_subs_api` with the given id
batch. -/
inductive CallRec
  | chart (category : Option String)
  | videos (ids : List String)
  | channels (ids : List String)
deriving DecidableEq

/-- The sidebar values the scan reads (app.py 301-335), after the `int` /
`float` coercions applied at the use sites. -/
structure Params where
  scan_by_categories : Bool
  selected_ids : List String
  video_cache_hours : ℤ
  channel_cache_hours : ℤ
  exclude_shorts : Bool
  min_seconds : ℤ
  max_subs : ℤ
  min_views : ℤ
  min_ratio : ℚ
  max_candidates : ℕ

/-- The external world: the three remote fetch helpers (each modelled as
one oracle answer for the whole helper, pagination and 50-id chunking
included), the timestamp decoder and the current time. -/
structure Oracles where
  chart : Option String → Except HErr (List String)
  fetchVideos : List String → Except HErr (List Video)
  fetchChannels : List String → Except HErr (Dict (Option ℤ))
  parseTs : String → ℚ
  now : ℚ

/-- The per-category collection loop (app.py 360-365): one
`most_popular_video_ids` call per selected category — that helper ends
in `list(dict.fromkeys(ids))`, hence the `dedupFirst` on each oracle
answer — with `except HttpError: continue` dropping the category on any
`HttpError`, whatever its status. -/
def collectCategories (chart : Option String → Except HErr (List String))
    (selected_ids : List String) : List String × List CallRec :=
  selected_ids.foldl
    (fun acc cid =>
      match chart (some cid) with
      | .ok ids => (acc.1 ++ dedupFirst ids, acc.2 ++ [CallRec.chart (some cid)])
      | .error _ => (acc.1, acc.2 ++ [CallRec.chart (some cid)]))
    ([], [])

/-- app.py 370: `video_ids = list(dict.fromkeys(video_ids))[:int(max_candidates)]`. -/
def dedupCap (l : List String) (cap : ℕ) : List String := (dedupFirst l).take cap

/-- Outcome of the cache-first resolution phase (app.py 372-394).  On an
`HttpError` (`err = some e`) the partial state is kept: the video upsert
precedes the channel fetch, as in the source. -/
structure ResolveResult where
  err : Option HErr
  vids : List Video
  subs_map : Dict (Option ℤ)
  state : CacheState
  calls : List CallRec

/-- Channel half of the resolution phase (app.py 384-394).  The Python
`list({v["channelId"] for v in vids if v.get("channelId")})` builds a set
(iteration order unspecified); it is modelled as first-seen-order
deduplication, which no claim's property depends on. -/
def resolveChannels (σ1 : CacheState) (all_v : Dict Video) (Hc : ℤ) (now : ℚ)
    (fetchC : List String → Except HErr (Dict (Option ℤ))) (calls0 : List CallRec) :
    ResolveResult :=
  let vids := all_v.map Prod.snd
  let channel_ids := dedupFirst (vids.filterMap
    (fun v => if v.channelId = "" then none else some v.channelId))
  let cached_c := get_cached_subs σ1 channel_ids Hc now
  let missing_c := channel_ids.filter (fun cid => ! containsKey cached_c cid)
  if missing_c.isEmpty then
    { err := none, vids := vids, subs_map := dictUnion cached_c [], state := σ1, calls := calls0 }
  else
    match fetchC missing_c with
    | .error e =>
      { err := some e, vids := [], subs_map := [], state := σ1,
        calls := calls0 ++ [CallRec.channels missing_c] }
    | .ok fresh_subs =>
      { err := none, vids := vids, subs_map := dictUnion cached_c fresh_subs,
        state := upsert_channels_cache σ1 fresh_subs now,
        calls := calls0 ++ [CallRec.channels missing_c] }

/-- Python `{it["videoId"]: it for it in fresh_v_items}`. -/
def keyByVideoId (items : List Video) : Dict Video :=
  upsertList Video.videoId (fun it => it) items []

/-- The cache-first resolution phase (app.py 372-394): read the cache,
fetch only the missing ids, upsert the fresh data immediately, merge,
then repeat the pattern for channel subscriber counts. -/
def resolvePhase (σ : CacheState) (video_ids : List String) (Hv Hc : ℤ) (now : ℚ)
    (fetchV : List String → Except HErr (List Video))
    (fetchC : List String → Except HErr (Dict (Option ℤ))) : ResolveResult :=
  let cached_v := get_cached_videos σ video_ids Hv now
  let missing_v := video_ids.filter (fun vid => ! containsKey cached_v vid)
  if missing_v.isEmpty then
    resolveChannels σ (dictUnion cached_v (keyByVideoId [])) Hc now fetchC []
  else
    match fetchV missing_v with
    | .error e =>
      { err := some e, vids := [], subs_map := [], state := σ,
        calls := [CallRec.videos missing_v] }
    | .ok items =>
      resolveChannels (upsert_videos_cache σ items now)
        (dictUnion cached_v (keyByVideoId items)) Hc now fetchC [CallRec.videos missing_v]

/-- `subs = subs_map.get(v.get("channelId", ""))` (app.py 403): a missing
key and a stored hidden count both give Python `None`, hence the join. -/
def subsOf (subs_map : Dict (Option ℤ)) (v : Video) : Option ℤ :=
  (dlookup subs_map v.channelId).join

/-- `days = age_days(v["publishedAt"]) if v.get("publishedAt") else None`
(app.py 404): the empty string is falsy. -/
def daysOf (parseTs : String → ℚ) (now : ℚ) (v : Video) : Option ℚ :=
  if v.publishedAt = "" then none else some (age_days parseTs now v.publishedAt)

/-- `vpd = (v["views"] / days) if days else None` (app.py 405): `None`
and `0.0` are both falsy. -/
def vpdOf (parseTs : String → ℚ) (now : ℚ) (v : Video) : Option ℚ :=
  match daysOf parseTs now v with
  | none => none
  | some d => if d = 0 then none else some ((v.views : ℚ) / d)

/-- `ratio` (app.py 407-409): `v["views"] / subs` when `subs` is truthy
and positive, else `None`. -/
def ratioOf (subs : Option ℤ) (views : ℤ) : Option ℚ :=
  match subs with
  | none => none
  | some s => if 0 < s then some ((views : ℚ) / (s : ℚ)) else none

/-- One element of `rows` (app.py 418-429).  `round(x, 2)` on
`views_per_day` and `ratio` is display rounding and is omitted: the
unrounded quotient is stored. -/
structure OutRow where
  title : String
  channel : String
  subs : Option ℤ
  views : ℤ
  views_per_day : Option ℚ
  ratio : Option ℚ
  duration_sec : Nat
  publishedAt : String
  thumbnail : Option String
  url : String
deriving DecidableEq

/-- One iteration of the compute + filter loop (app.py 398-429): `none`
when the video is dropped by the shorts gate or by one of the three
inclusion filters, `some row` when it is appended to `rows`. -/
def filterRow (exclude_shorts : Bool) (min_seconds min_views max_subs : ℤ) (min_ratio : ℚ)
    (subs_map : Dict (Option ℤ)) (parseTs : String → ℚ) (now : ℚ) (v : Video) : Option OutRow :=
  let secs := iso_duration_to_seconds v.duration_iso
  if exclude_shorts ∧ (secs : ℤ) < min_seconds then none
  else
    let subs := subsOf subs_map v
    let vpd := vpdOf parseTs now v
    let rat := ratioOf subs v.views
    if v.views < min_views then none
    else if subs.any (fun s => decide (max_subs < s)) then none
    else if rat.any (fun x => decide (x < min_ratio)) then none
    else some
      { title := v.title, channel := v.channelTitle, subs := subs, views := v.views,
        views_per_day := vpd, ratio := rat, duration_sec := secs,
        publishedAt := v.publishedAt, thumbnail := v.thumbnail,
        url := "https://www.youtube.com/watch?v=" ++ v.videoId }

/-- What the scan leaves behind: the `errors` list (nonempty means the
page showed the raw diagnostics and stopped before rendering any rows),
the capped candidate list, the retained rows, the cache state and the
remote calls issued. -/
structure ScanResult where
  errors : List String
  video_ids : List String
  rows : List OutRow
  state : CacheState
  calls : List CallRec
deriving DecidableEq

/-- Everything after candidate acquisition (app.py 369-429 plus the
outer `except HttpError` at 431-437). -/
def scanAfterAcquire (p : Params) (o : Oracles) (σ : CacheState)
    (raw_ids : List String) (log : List CallRec) : ScanResult :=
  let video_ids := dedupCap raw_ids p.max_candidates
  let r := resolvePhase σ video_ids p.video_cache_hours p.channel_cache_hours o.now
    o.fetchVideos o.fetchChannels
  match r.err with
  | some e =>
    { errors := [http_error_text e], video_ids := video_ids, rows := [],
      state := r.state, calls := log ++ r.calls }
  | none =>
    { errors := [], video_ids := video_ids,
      rows := r.vids.filterMap (filterRow p.exclude_shorts p.min_seconds p.min_views
        p.max_subs p.min_ratio r.subs_map o.parseTs o.now),
      state := r.state, calls := log ++ r.calls }

/-- The whole scan (app.py 341-437): acquisition (per-category loop or a
single unfiltered chart call), dedupe + cap, cache-first resolution,
compute + filter, with the outer `except HttpError` turning any escaped
`HttpError` into the aborted result (`errors` nonempty, no rows
rendered, `video_ids` still `[]` since the failed `extend` never ran). -/
def runScan (p : Params) (o : Oracles) (σ : CacheState) : ScanResult :=
  if p.scan_by_categories then
    let acq := collectCategories o.chart p.selected_ids
    scanAfterAcquire p o σ acq.1 acq.2
  else
    match o.chart none with
    | .error e =>
      { errors := [http_error_text e], video_ids := [], rows := [], state := σ,
        calls := [CallRec.chart none] }
    | .ok ids => scanAfterAcquire p o σ (dedupFirst ids) [CallRec.chart none]

/-- One optional component of a duration code: nothing, or a digit run
followed by its unit letter. -/
def durPart (ds : Option (List Char)) (letter : Char) : List Char :=
  match ds with
  | none => []
  | some l => l ++ [letter]

/-- A code of the `PT[nH][nM][nS]` family with the given (optional)
digit runs for hours, minutes and seconds. -/
def renderDur (h mi s : Option (List Char)) : String :=
  String.mk ('P' :: 'T' :: (durPart h 'H' ++ (durPart mi 'M' ++ durPart s 'S')))

/-- Numeric value of an optional digit run (0 when absent, as
`int(m.group(i) or 0)`). -/
def optDigitsVal (ds : Option (List Char)) : Nat :=
  match ds with
  | none => 0
  | some l => digitsVal l

/-- The ids one category contributes to the collection loop: the
deduplicated chart answer on success, nothing when the call raised. -/
def chartIds (chart : Option String → Except HErr (List String)) (c : String) : List String :=
  match chart (some c) with
  | .ok l => dedupFirst l
  | .error _ => []

/-- A 403 quota-exceeded `HttpError`, for concrete scenarios. -/
def errQuota : HErr := { status := 403, text := "quota", body := "quotaExceeded" }

/-- Concrete chart oracle: categories A and C succeed, B fails with the
quota error. -/
def exChart : Option String → Except HErr (List String) := fun c =>
  if c = some "A" then .ok ["v1", "v2"]
  else if c = some "B" then .error errQuota
  else if c = some "C" then .ok ["v2", "v3"]
  else .ok []

/-- Concrete video payload for id `i` (no channel id, no publish date:
the row survives the filters through the `None` branches). -/
def exVideo (i : String) : Video :=
  { videoId := i, title := i, channelId := "", channelTitle := "chan",
    publishedAt := "", views := 5, duration_iso := "", thumbnail := none }

/-- Concrete oracle set: chart per `exChart`, detail fetches succeed. -/
def exOracles : Oracles :=
  { chart := exChart,
    fetchVideos := fun ids => .ok (ids.map exVideo),
    fetchChannels := fun ids => .ok (ids.map (fun c => (c, some 5))),
    parseTs := fun _ => 0,
    now := 0 }

/-- Concrete oracle set whose chart call always fails with the quota
error. -/
def exOraclesFail : Oracles :=
  { chart := fun _ => .error errQuota,
    fetchVideos := fun _ => .ok [],
    fetchChannels := fun _ => .ok [],
    parseTs := fun _ => 0,
    now := 0 }

/-- A concrete video that carries a (non-empty) publish timestamp. -/
def exVideoDated : Video := { exVideo "p" with publishedAt := "2024-01-01T00:00:00+00:00" }

/-- A concrete video that carries a channel id. -/
def exVideoCh : Video := { exVideo "v1" with channelId := "ch1" }

/-- Its cache row, fetched at time 0. -/
def exRow : Row := itemToRow exVideoCh 0

/-- A concrete cache state holding that video and its channel, both
fetched at time 0. -/
def exState : CacheState := ⟨[("v1", exRow)], [("ch1", (some 5, 0))]⟩

/-- Concrete category-mode parameters with permissive filters. -/
def exParamsCat : Params :=
  { scan_by_categories := true, selected_ids := ["A", "B", "C"],
    video_cache_hours := 12, channel_cache_hours := 24,
    exclude_shorts := false, min_seconds := 120,
    max_subs := 10000, min_views := 0, min_ratio := 0, max_candidates := 300 }

/-- The same parameters in single-chart mode. -/
def exParamsSingle : Params :=
  { exParamsCat with scan_by_categories := false }

/-! ### Dictionary lemmas -/

theorem dlookup_isSome_iff {α : Type} (m : Dict α) (k : String) :
    (dlookup m k).isSome = true ↔ ∃ v, (k, v) ∈ m := by
  induction m with
  | nil => simp [dlookup]
  | cons p rest ih =>
    by_cases h : p.1 = k
    · subst h
      exact Iff.intro (fun _ => ⟨p.2, List.mem_cons_self _ _⟩) (fun _ => by simp [dlookup])
    · simp only [dlookup, if_neg h, ih, List.mem_cons]
      constructor
      · rintro ⟨v, hv⟩; exact ⟨v, Or.inr hv⟩
      · rintro ⟨v, hv | hv⟩
        · exact absurd (congrArg Prod.fst hv).symm h
        · exact ⟨v, hv⟩

theorem containsKey_eq_isSome {α : Type} (m : Dict α) (k : String) :
    containsKey m k = (dlookup m k).isSome := by
  induction m with
  | nil => rfl
  | cons p rest ih =>
    by_cases h : p.1 = k <;> simp [containsKey, dlookup, h, ih]

theorem containsKey_iff {α : Type} (m : Dict α) (k : String) :
    containsKey m k = true ↔ ∃ v, (k, v) ∈ m := by
  rw [containsKey_eq_isSome]; exact dlookup_isSome_iff m k

theorem dlookup_mem {α : Type} {m : Dict α} {k : String} {v : α}
    (h : dlookup m k = some v) : (k, v) ∈ m := by
  induction m with
  | nil => simp [dlookup] at h
  | cons p rest ih =>
    by_cases hk : p.1 = k
    · subst hk
      rw [dlookup, if_pos rfl] at h
      cases h
      exact List.mem_cons_self _ _
    · rw [dlookup, if_neg hk] at h
      exact List.mem_cons_of_mem _ (ih h)

theorem dlookup_of_mem_nodup {α : Type} {m : Dict α} {k : String} {v : α}
    (hn : (m.map Prod.fst).Nodup) (h : (k, v) ∈ m) : dlookup m k = some v := by
  induction m with
  | nil => simp at h
  | cons p rest ih =>
    rw [List.map_cons, List.nodup_cons] at hn
    rcases List.mem_cons.1 h with h | h
    · subst h
      simp [dlookup]
    · have hk : p.1 ≠ k := by
        intro hpk
        exact hn.1 (hpk ▸ (List.mem_map.2 ⟨(k, v), h, rfl⟩))
      rw [dlookup, if_neg hk]
      exact ih hn.2 h

theorem dlookup_append {α : Type} (a b : Dict α) (k : String) :
    dlookup (a ++ b) k =
      match dlookup a k with
      | some v => some v
      | none => dlookup b k := by
  induction a with
  | nil => simp [dlookup]
  | cons p rest ih =>
    by_cases h : p.1 = k <;> simp [dlookup, h, ih]

theorem containsKey_append {α : Type} (a b : Dict α) (k : String) :
    containsKey (a ++ b) k = (containsKey a k || containsKey b k) := by
  induction a with
  | nil => simp [containsKey]
  | cons p rest ih =>
    by_cases h : p.1 = k <;> simp [containsKey, h, ih]

theorem dlookup_map_replace_of_contains {α : Type} {m : Dict α} {k : String} (v : α)
    (h : containsKey m k = true) :
    dlookup (m.map (fun p => if p.1 = k then (k, v) else p)) k = some v := by
  induction m with
  | nil => simp [containsKey] at h
  | cons p rest ih =>
    by_cases hk : p.1 = k
    · simp [dlookup, hk]
    · rw [containsKey, if_neg hk] at h
      simp only [List.map_cons, if_neg hk]
      rw [dlookup, if_neg hk]
      exact ih h

theorem dlookup_map_replace_ne {α : Type} (m : Dict α) {k k' : String} (v : α)
    (h : k' ≠ k) :
    dlookup (m.map (fun p => if p.1 = k then (k, v) else p)) k' = dlookup m k' := by
  induction m with
  | nil => rfl
  | cons p rest ih =>
    by_cases hk : p.1 = k
    · have : k ≠ k' := fun he => h he.symm
      simp only [List.map_cons, if_pos hk]
      rw [dlookup, if_neg this, dlookup, if_neg (hk ▸ this), ih]
    · simp only [List.map_cons, if_neg hk]
      rw [dlookup, dlookup, ih]

theorem dlookup_upsertKV_self {α : Type} (m : Dict α) (k : String) (v : α) :
    dlookup (upsertKV m k v) k = some v := by
  unfold upsertKV
  split
  · next h => exact dlookup_map_replace_of_contains v h
  · next h =>
    rw [dlookup_append]
    have : dlookup m k = none := by
      rw [containsKey_eq_isSome] at h
      exact Option.not_isSome_iff_eq_none.1 (fun hs => by simp [hs] at h)
    simp [this, dlookup]

theorem dlookup_upsertKV_ne {α : Type} (m : Dict α) {k k' : String} (v : α)
    (h : k' ≠ k) : dlookup (upsertKV m k v) k' = dlookup m k' := by
  unfold upsertKV
  split
  · exact dlookup_map_replace_ne m v h
  · rw [dlookup_append]
    have hkk : ¬k = k' := fun he => h he.symm
    have hone : dlookup [(k, v)] k' = none := by simp [dlookup, hkk]
    cases hm : dlookup m k' <;> simp [hm, hone]

theorem keys_upsertKV {α : Type} (m : Dict α) (k : String) (v : α) :
    (upsertKV m k v).map Prod.fst =
      if containsKey m k then m.map Prod.fst else m.map Prod.fst ++ [k] := by
  unfold upsertKV
  split
  · next h =>
    rw [List.map_map]
    apply List.map_congr_left
    intro p _
    by_cases hk : p.1 = k <;> simp [hk]
  · next h => simp

theorem nodupKeys_upsertKV {α : Type} {m : Dict α} (k : String) (v : α)
    (h : (m.map Prod.fst).Nodup) : ((upsertKV m k v).map Prod.fst).Nodup := by
  rw [keys_upsertKV]
  split
  · exact h
  · next hc =>
    have hk : k ∉ m.map Prod.fst := by
      intro hkmem
      apply hc
      rcases List.mem_map.1 hkmem with ⟨p, hp, hpk⟩
      exact (containsKey_iff m k).2 ⟨p.2, by rw [← hpk]; exact hp⟩
    rw [List.nodup_append]
    refine ⟨h, List.nodup_singleton k, ?_⟩
    intro a ha hak
    rw [List.mem_singleton] at hak
    subst hak
    exact hk ha

theorem lastBy?_eq_some {α : Type} {key : α → String} {l : List α} {k : String} {b : α}
    (h : lastBy? key l k = some b) : b ∈ l ∧ key b = k := by
  induction l with
  | nil => simp [lastBy?] at h
  | cons c rest ih =>
    rw [lastBy?] at h
    cases hrest : lastBy? key rest k with
    | some r =>
      rw [hrest] at h
      cases h
      rcases ih hrest with ⟨hm, hk⟩
      exact ⟨List.mem_cons_of_mem _ hm, hk⟩
    | none =>
      rw [hrest] at h
      by_cases hc : key c = k
      · rw [if_pos hc] at h
        cases h
        exact ⟨List.mem_cons_self _ _, hc⟩
      · rw [if_neg hc] at h
        cases h

theorem lastBy?_isSome_iff {α : Type} (key : α → String) (l : List α) (k : String) :
    (lastBy? key l k).isSome = true ↔ ∃ b ∈ l, key b = k := by
  induction l with
  | nil => simp [lastBy?]
  | cons c rest ih =>
    rw [lastBy?]
    cases hrest : lastBy? key rest k with
    | some r =>
      rw [hrest] at ih
      simp only [Option.isSome_some, true_iff] at ih ⊢
      rcases ih with ⟨b, hb, hk⟩
      exact ⟨b, List.mem_cons_of_mem _ hb, hk⟩
    | none =>
      rw [hrest] at ih
      simp only [Option.isSome_none, Bool.false_eq_true, false_iff] at ih
      by_cases hc : key c = k
      · simp only [if_pos hc, Option.isSome_some, true_iff]
        exact ⟨c, List.mem_cons_self _ _, hc⟩
      · simp only [if_neg hc, Option.isSome_none, Bool.false_eq_true, false_iff]
        rintro ⟨b, hb, hk⟩
        rcases List.mem_cons.1 hb with rfl | hb
        · exact hc hk
        · exact ih ⟨b, hb, hk⟩

theorem dlookup_upsertList {α β : Type} (key : β → String) (val : β → α) :
    ∀ (l : List β) (T : Dict α) (k : String),
    dlookup (upsertList key val l T) k =
      match lastBy? key l k with
      | some b => some (val b)
      | none => dlookup T k := by
  intro l
  induction l with
  | nil => intro T k; rfl
  | cons b rest ih =>
    intro T k
    rw [upsertList, ih]
    cases hrest : lastBy? key rest k with
    | some r => simp [lastBy?, hrest]
    | none =>
      simp only [lastBy?, hrest]
      by_cases hb : key b = k
      · subst hb
        simp [dlookup_upsertKV_self]
      · rw [if_neg hb]
        exact dlookup_upsertKV_ne T (val b) (fun he => hb he.symm)

theorem nodupKeys_upsertList {α β : Type} (key : β → String) (val : β → α) :
    ∀ (l : List β) (T : Dict α), (T.map Prod.fst).Nodup →
    ((upsertList key val l T).map Prod.fst).Nodup := by
  intro l
  induction l with
  | nil => intro T h; exact h
  | cons b rest ih => intro T h; exact ih _ (nodupKeys_upsertKV _ _ h)

theorem upsertList_pairs_of_disjoint {α : Type} :
    ∀ (b : Dict α) (T : Dict α), (b.map Prod.fst).Nodup →
    (∀ p ∈ b, containsKey T p.1 = false) →
    upsertList Prod.fst Prod.snd b T = T ++ b := by
  intro b
  induction b with
  | nil => intro T _ _; simp [upsertList]
  | cons p rest ih =>
    intro T hn hd
    rw [List.map_cons, List.nodup_cons] at hn
    have hc : containsKey T p.1 = false := hd p (List.mem_cons_self _ _)
    have h1 : upsertKV T p.1 p.2 = T ++ [p] := by
      unfold upsertKV
      rw [hc]
      simp
    rw [upsertList, h1, ih (T ++ [p]) hn.2]
    · simp
    · intro q hq
      rw [containsKey_append, hd q (List.mem_cons_of_mem _ hq)]
      have hne : p.1 ≠ q.1 := by
        intro he
        exact hn.1 (he ▸ List.mem_map.2 ⟨q, hq, rfl⟩)
      simp [containsKey, hne]

theorem dictUnion_nil {α : Type} (b : Dict α) (h : (b.map Prod.fst).Nodup) :
    dictUnion [] b = b := by
  unfold dictUnion
  rw [upsertList_pairs_of_disjoint b [] h (fun p _ => rfl)]
  rfl

/-! ### Deduplication lemmas -/

theorem mem_dedupAcc : ∀ (l acc : List String) (x : String),
    x ∈ dedupAcc acc l ↔ x ∈ acc ∨ x ∈ l := by
  intro l
  induction l with
  | nil => simp [dedupAcc]
  | cons y ys ih =>
    intro acc x
    by_cases hy : y ∈ acc
    · rw [dedupAcc, if_pos hy, ih]
      simp only [List.mem_cons]
      constructor
      · rintro (h | h)
        · exact Or.inl h
        · exact Or.inr (Or.inr h)
      · rintro (h | h | h)
        · exact Or.inl h
        · exact Or.inl (h.symm ▸ hy)
        · exact Or.inr h
    · rw [dedupAcc, if_neg hy, ih]
      simp only [List.mem_append, List.mem_singleton, List.mem_cons]
      tauto

theorem dedupAcc_spec : ∀ (l acc : List String),
    ∃ t, dedupAcc acc l = acc ++ t ∧ t.Sublist l ∧ t.Nodup ∧ ∀ x ∈ t, x ∉ acc := by
  intro l
  induction l with
  | nil => intro acc; exact ⟨[], by simp [dedupAcc], List.nil_sublist _, List.nodup_nil, by simp⟩
  | cons y ys ih =>
    intro acc
    by_cases hy : y ∈ acc
    · rcases ih acc with ⟨t, ht, hsub, hnd, hna⟩
      exact ⟨t, by rw [dedupAcc, if_pos hy]; exact ht, hsub.cons _, hnd, hna⟩
    · rcases ih (acc ++ [y]) with ⟨t, ht, hsub, hnd, hna⟩
      refine ⟨y :: t, ?_, hsub.cons₂ _, ?_, ?_⟩
      · rw [dedupAcc, if_neg hy, ht, List.append_assoc]
        rfl
      · refine List.nodup_cons.2 ⟨fun hyt => hna y hyt (by simp), hnd⟩
      · intro x hx
        rcases List.mem_cons.1 hx with rfl | hx
        · exact hy
        · intro hxa
          exact hna x hx (List.mem_append_left _ hxa)

theorem dedupFirst_sublist (l : List String) : (dedupFirst l).Sublist l := by
  rcases dedupAcc_spec l [] with ⟨t, ht, hsub, -, -⟩
  rw [dedupFirst, ht]
  simpa using hsub

theorem dedupFirst_nodup (l : List String) : (dedupFirst l).Nodup := by
  rcases dedupAcc_spec l [] with ⟨t, ht, -, hnd, -⟩
  rw [dedupFirst, ht]
  simpa using hnd

theorem mem_dedupFirst (l : List String) (x : String) : x ∈ dedupFirst l ↔ x ∈ l := by
  rw [dedupFirst, mem_dedupAcc]
  simp

/-! ### Cache-read characterisation -/

theorem mem_get_videos {σ : CacheState} {ids : List String} {H : ℤ} {now : ℚ}
    {x : String × Video} :
    x ∈ get_cached_videos σ ids H now ↔
      ∃ p ∈ σ.videos, (p.1 ∈ ids ∧ now - (H : ℚ) * 3600 ≤ p.2.fetched_at) ∧
        x = (p.1, rowToVideo p.1 p.2) := by
  unfold get_cached_videos
  rw [List.mem_filterMap]
  constructor
  · rintro ⟨p, hp, hf⟩
    by_cases hc : p.1 ∈ ids ∧ now - (H : ℚ) * 3600 ≤ p.2.fetched_at
    · rw [if_pos hc] at hf
      cases hf
      exact ⟨p, hp, hc, rfl⟩
    · rw [if_neg hc] at hf
      cases hf
  · rintro ⟨p, hp, hc, rfl⟩
    exact ⟨p, hp, by rw [if_pos hc]⟩

theorem mem_get_subs {σ : CacheState} {ids : List String} {H : ℤ} {now : ℚ}
    {x : String × Option ℤ} :
    x ∈ get_cached_subs σ ids H now ↔
      ∃ p ∈ σ.channels, (p.1 ∈ ids ∧ now - (H : ℚ) * 3600 ≤ p.2.2) ∧ x = (p.1, p.2.1) := by
  unfold get_cached_subs
  rw [List.mem_filterMap]
  constructor
  · rintro ⟨p, hp, hf⟩
    by_cases hc : p.1 ∈ ids ∧ now - (H : ℚ) * 3600 ≤ p.2.2
    · rw [if_pos hc] at hf
      cases hf
      exact ⟨p, hp, hc, rfl⟩
    · rw [if_neg hc] at hf
      cases hf
  · rintro ⟨p, hp, hc, rfl⟩
    exact ⟨p, hp, by rw [if_pos hc]⟩

theorem dlookup_filterMap_key_notmem {β γ : Type} (g : String → β → Option γ) :
    ∀ (m : Dict β) (k : String), k ∉ m.map Prod.fst →
    dlookup (m.filterMap (fun p => Option.map (fun x => (p.1, x)) (g p.1 p.2))) k = none := by
  intro m
  induction m with
  | nil => intro k _; rfl
  | cons p rest ih =>
    intro k hk
    rw [List.map_cons, List.mem_cons] at hk
    push_neg at hk
    rw [List.filterMap_cons]
    cases hg : g p.1 p.2 with
    | none =>
      simp only [hg, Option.map_none']
      exact ih k hk.2
    | some x =>
      simp only [hg, Option.map_some']
      rw [dlookup, if_neg (fun he => hk.1 he.symm)]
      exact ih k hk.2

theorem dlookup_filterMap_key {β γ : Type} (g : String → β → Option γ) :
    ∀ (m : Dict β), (m.map Prod.fst).Nodup → ∀ k,
    dlookup (m.filterMap (fun p => Option.map (fun x => (p.1, x)) (g p.1 p.2))) k =
      (dlookup m k).bind (g k) := by
  intro m
  induction m with
  | nil => intro _ k; rfl
  | cons p rest ih =>
    intro hn k
    rw [List.map_cons, List.nodup_cons] at hn
    rw [List.filterMap_cons]
    by_cases hk : p.1 = k
    · subst hk
      have hrest : dlookup (rest.filterMap
          (fun p => Option.map (fun x => (p.1, x)) (g p.1 p.2))) p.1 = none :=
        dlookup_filterMap_key_notmem g rest p.1 hn.1
      cases hg : g p.1 p.2 with
      | none =>
        simp only [hg, Option.map_none']
        rw [hrest]
        simp [dlookup, hg]
      | some x =>
        simp only [hg, Option.map_some']
        rw [dlookup, if_pos rfl]
        simp [dlookup, hg]
    · have htail : dlookup (p :: rest) k = dlookup rest k := by
        rw [dlookup, if_neg hk]
      cases hg : g p.1 p.2 with
      | none =>
        simp only [hg, Option.map_none']
        rw [ih hn.2 k, htail]
      | some x =>
        simp only [hg, Option.map_some']
        rw [dlookup, if_neg hk, ih hn.2 k, htail]

theorem get_cached_videos_eq_filterMap (σ : CacheState) (ids : List String) (H : ℤ) (now : ℚ) :
    get_cached_videos σ ids H now =
      σ.videos.filterMap (fun p => Option.map (fun x => (p.1, x))
        (if p.1 ∈ ids ∧ now - (H : ℚ) * 3600 ≤ p.2.fetched_at
         then some (rowToVideo p.1 p.2) else none)) := by
  unfold get_cached_videos
  congr 1
  funext p
  split <;> rfl

theorem get_cached_subs_eq_filterMap (σ : CacheState) (ids : List String) (H : ℤ) (now : ℚ) :
    get_cached_subs σ ids H now =
      σ.channels.filterMap (fun p => Option.map (fun x => (p.1, x))
        (if p.1 ∈ ids ∧ now - (H : ℚ) * 3600 ≤ p.2.2 then some p.2.1 else none)) := by
  unfold get_cached_subs
  congr 1
  funext p
  split <;> rfl

theorem dlookup_get_cached_videos {σ : CacheState} (hn : (σ.videos.map Prod.fst).Nodup)
    (ids : List String) (H : ℤ) (now : ℚ) (k : String) :
    dlookup (get_cached_videos σ ids H now) k =
      (dlookup σ.videos k).bind (fun row =>
        if k ∈ ids ∧ now - (H : ℚ) * 3600 ≤ row.fetched_at then some (rowToVideo k row)
        else none) := by
  rw [get_cached_videos_eq_filterMap]
  exact dlookup_filterMap_key
    (fun k row => if k ∈ ids ∧ now - (H : ℚ) * 3600 ≤ row.fetched_at
      then some (rowToVideo k row) else none) σ.videos hn k

theorem dlookup_get_cached_subs {σ : CacheState} (hn : (σ.channels.map Prod.fst).Nodup)
    (ids : List String) (H : ℤ) (now : ℚ) (k : String) :
    dlookup (get_cached_subs σ ids H now) k =
      (dlookup σ.channels k).bind (fun c =>
        if k ∈ ids ∧ now - (H : ℚ) * 3600 ≤ c.2 then some c.1 else none) := by
  rw [get_cached_subs_eq_filterMap]
  exact dlookup_filterMap_key
    (fun k c => if k ∈ ids ∧ now - (H : ℚ) * 3600 ≤ c.2 then some c.1 else none)
    σ.channels hn k

/-! ### Duration-decoder lemmas -/

theorem takeWhile_digits_append (ds : List Char) (c : Char) (rest : List Char)
    (hd : ∀ x ∈ ds, x.isDigit = true) (hc : c.isDigit = false) :
    (ds ++ c :: rest).takeWhile Char.isDigit = ds ∧
      (ds ++ c :: rest).dropWhile Char.isDigit = c :: rest := by
  induction ds with
  | nil =>
    constructor
    · simp [List.takeWhile, hc]
    · simp [List.dropWhile, hc]
  | cons a as ih =>
    have ha : a.isDigit = true := hd a (List.mem_cons_self _ _)
    obtain ⟨ih1, ih2⟩ := ih (fun x hx => hd x (List.mem_cons_of_mem _ hx))
    constructor
    · simp [List.takeWhile, ha, ih1]
    · simp [List.dropWhile, ha, ih2]

theorem durGroup_hit (letter : Char) (ds rest : List Char) (hne : ds ≠ [])
    (hd : ∀ x ∈ ds, x.isDigit = true) (hlet : letter.isDigit = false) :
    durGroup letter (ds ++ letter :: rest) = (digitsVal ds, rest) := by
  obtain ⟨h1, h2⟩ := takeWhile_digits_append ds letter rest hd hlet
  unfold durGroup
  simp only [h1, h2]
  rcases ds with - | ⟨a, as⟩
  · exact absurd rfl hne
  · simp

theorem durGroup_miss (letter c : Char) (ds rest : List Char)
    (hd : ∀ x ∈ ds, x.isDigit = true) (hc : c.isDigit = false) (hne : c ≠ letter) :
    durGroup letter (ds ++ c :: rest) = (0, ds ++ c :: rest) := by
  obtain ⟨h1, h2⟩ := takeWhile_digits_append ds c rest hd hc
  unfold durGroup
  simp only [h1, h2]
  rcases ds with - | ⟨a, as⟩
  · simp
  · simp [hne]

theorem durGroup_S (s : Option (List Char))
    (hs : ∀ l, s = some l → l ≠ [] ∧ ∀ c ∈ l, c.isDigit = true) :
    durGroup 'S' (durPart s 'S') = (optDigitsVal s, []) := by
  rcases s with - | l
  · rfl
  · obtain ⟨hne, hd⟩ := hs l rfl
    have he : durPart (some l) 'S' = l ++ 'S' :: [] := by simp [durPart]
    rw [he, durGroup_hit 'S' l [] hne hd (by decide)]
    rfl

theorem durGroup_M (mi s : Option (List Char))
    (hm : ∀ l, mi = some l → l ≠ [] ∧ ∀ c ∈ l, c.isDigit = true)
    (hs : ∀ l, s = some l → l ≠ [] ∧ ∀ c ∈ l, c.isDigit = true) :
    durGroup 'M' (durPart mi 'M' ++ durPart s 'S') = (optDigitsVal mi, durPart s 'S') := by
  rcases mi with - | ml
  · rcases s with - | sl
    · rfl
    · obtain ⟨hne, hd⟩ := hs sl rfl
      have he : durPart (none : Option (List Char)) 'M' ++ durPart (some sl) 'S'
          = sl ++ 'S' :: [] := by simp [durPart]
      rw [he, durGroup_miss 'M' 'S' sl [] hd (by decide) (by decide)]
      simp [durPart, optDigitsVal]
  · obtain ⟨hne, hd⟩ := hm ml rfl
    have he : durPart (some ml) 'M' ++ durPart s 'S' = ml ++ 'M' :: durPart s 'S' := by
      simp [durPart]
    rw [he, durGroup_hit 'M' ml _ hne hd (by decide)]
    rfl

theorem durGroup_H (h mi s : Option (List Char))
    (hh : ∀ l, h = some l → l ≠ [] ∧ ∀ c ∈ l, c.isDigit = true)
    (hm : ∀ l, mi = some l → l ≠ [] ∧ ∀ c ∈ l, c.isDigit = true)
    (hs : ∀ l, s = some l → l ≠ [] ∧ ∀ c ∈ l, c.isDigit = true) :
    durGroup 'H' (durPart h 'H' ++ (durPart mi 'M' ++ durPart s 'S'))
      = (optDigitsVal h, durPart mi 'M' ++ durPart s 'S') := by
  rcases h with - | hl
  · rcases mi with - | ml
    · rcases s with - | sl
      · rfl
      · obtain ⟨hne, hd⟩ := hs sl rfl
        have he : durPart (none : Option (List Char)) 'H' ++
            (durPart (none : Option (List Char)) 'M' ++ durPart (some sl) 'S')
            = sl ++ 'S' :: [] := by simp [durPart]
        rw [he, durGroup_miss 'H' 'S' sl [] hd (by decide) (by decide)]
        simp [durPart, optDigitsVal]
    · obtain ⟨hne, hd⟩ := hm ml rfl
      have he : durPart (none : Option (List Char)) 'H' ++
          (durPart (some ml) 'M' ++ durPart s 'S') = ml ++ 'M' :: durPart s 'S' := by
        simp [durPart]
      rw [he, durGroup_miss 'H' 'M' ml _ hd (by decide) (by decide)]
      simp [durPart, optDigitsVal]
  · obtain ⟨hne, hd⟩ := hh hl rfl
    have he : durPart (some hl) 'H' ++ (durPart mi 'M' ++ durPart s 'S')
        = hl ++ 'H' :: (durPart mi 'M' ++ durPart s 'S') := by simp [durPart]
    rw [he, durGroup_hit 'H' hl _ hne hd (by decide)]
    rfl

theorem iso_renderDur (h mi s : Option (List Char))
    (hh : ∀ l, h = some l → l ≠ [] ∧ ∀ c ∈ l, c.isDigit = true)
    (hm : ∀ l, mi = some l → l ≠ [] ∧ ∀ c ∈ l, c.isDigit = true)
    (hs : ∀ l, s = some l → l ≠ [] ∧ ∀ c ∈ l, c.isDigit = true) :
    iso_duration_to_seconds (renderDur h mi s)
      = optDigitsVal h * 3600 + optDigitsVal mi * 60 + optDigitsVal s := by
  have e1 := durGroup_H h mi s hh hm hs
  have e2 := durGroup_M mi s hm hs
  have e3 := durGroup_S s hs
  unfold iso_duration_to_seconds renderDur
  simp only [e1, e2, e3]
  rfl

/-! ### Claim theorems (with their witnesses and counterexamples) -/

/-- C5: the collector's dedupe + cap step (app.py 370) deduplicates
preserving first-seen order (the result is a duplicate-free sublist of
the input with the same members) and only then truncates to
`candidate_cap`; on `[a,b,a,c,b,d]` with cap 3 it returns exactly
`[a,b,c]`. -/
theorem claim_C5 :
    dedupCap ["a", "b", "a", "c", "b", "d"] 3 = ["a", "b", "c"]
    ∧ (∀ l : List String,
        (dedupFirst l).Nodup ∧ (dedupFirst l).Sublist l ∧ ∀ x, x ∈ dedupFirst l ↔ x ∈ l)
    ∧ ∀ (l : List String) (cap : ℕ),
        dedupCap l cap = (dedupFirst l).take cap ∧ (dedupCap l cap).length ≤ cap := by
  refine ⟨by decide, fun l => ⟨dedupFirst_nodup l, dedupFirst_sublist l, mem_dedupFirst l⟩, ?_⟩
  intro l cap
  refine ⟨rfl, ?_⟩
  rw [dedupCap, List.length_take]
  exact min_le_left _ _

/-- C7: the duration decoder is a total function (by construction it
returns a value on every string, never an error); on every code of the
`PT[nH][nM][nS]` family — each component optional, an input with any
other shape (empty, garbage, or a days component) is a non-match — it
returns hours*3600 + minutes*60 + seconds, and it returns 0 on a
non-matching input; in particular `"PT1H2M3S" -> 3723`, `"PT45S" -> 45`,
`"" -> 0`, `"garbage" -> 0`. -/
theorem claim_C7 :
    iso_duration_to_seconds "PT1H2M3S" = 3723
    ∧ iso_duration_to_seconds "PT45S" = 45
    ∧ iso_duration_to_seconds "" = 0
    ∧ iso_duration_to_seconds "garbage" = 0
    ∧ ∀ h mi s : Option (List Char),
        (∀ l, h = some l → l ≠ [] ∧ ∀ c ∈ l, c.isDigit = true) →
        (∀ l, mi = some l → l ≠ [] ∧ ∀ c ∈ l, c.isDigit = true) →
        (∀ l, s = some l → l ≠ [] ∧ ∀ c ∈ l, c.isDigit = true) →
        iso_duration_to_seconds (renderDur h mi s)
          = optDigitsVal h * 3600 + optDigitsVal mi * 60 + optDigitsVal s := by
  exact ⟨by decide, by decide, by decide, by decide, iso_renderDur⟩

/-- Witness for C7 at a concrete member of the family:
`"PT4H2S"` (minutes component absent) decodes to 4*3600 + 0*60 + 2. -/
theorem claim_C7_witness :
    iso_duration_to_seconds (renderDur (some ['4']) none (some ['2']))
      = optDigitsVal (some ['4']) * 3600 + optDigitsVal none * 60 + optDigitsVal (some ['2']) :=
  claim_C7.2.2.2.2 (some ['4']) none (some ['2'])
    (by intro l hl; cases hl; exact ⟨by decide, by decide⟩)
    (by intro l hl; cases hl)
    (by intro l hl; cases hl; exact ⟨by decide, by decide⟩)

/-- C10: with the exclude-shorts filter active and a positive minimum
duration, every video whose duration code decodes to 0 — the empty
(missing) code, a malformed code, and a code with a days component all
do — is dropped by the compute + filter loop. -/
theorem claim_C10 :
    iso_duration_to_seconds "" = 0
    ∧ iso_duration_to_seconds "P1DT2H3M4S" = 0
    ∧ iso_duration_to_seconds "not-a-duration" = 0
    ∧ ∀ (min_seconds min_views max_subs : ℤ) (min_ratio : ℚ) (subs_map : Dict (Option ℤ))
        (parseTs : String → ℚ) (now : ℚ) (v : Video),
        iso_duration_to_seconds v.duration_iso = 0 → 0 < min_seconds →
        filterRow true min_seconds min_views max_subs min_ratio subs_map parseTs now v = none := by
  refine ⟨by decide, by decide, by decide, ?_⟩
  intro ms mv mxs mr sm pt now v h0 hpos
  unfold filterRow
  rw [h0, if_pos]
  exact ⟨rfl, by exact_mod_cast hpos⟩

/-- Witness for C10: a video with a days-component duration code is
dropped when shorts below 60 seconds are excluded. -/
theorem claim_C10_witness :
    filterRow true 60 0 0 0 [] (fun _ => 0) 0
      { videoId := "w", title := "w", channelId := "", channelTitle := "w",
        publishedAt := "", views := 100, duration_iso := "P1DT2H3M4S", thumbnail := none }
      = none :=
  claim_C10.2.2.2 60 0 0 0 [] (fun _ => 0) 0 _ (by decide) (by decide)

theorem filterRow_isSome_iff (es : Bool) (ms mv mxs : ℤ) (mr : ℚ) (sm : Dict (Option ℤ))
    (pt : String → ℚ) (now : ℚ) (v : Video)
    (hgate : ¬(es = true ∧ (iso_duration_to_seconds v.duration_iso : ℤ) < ms)) :
    (filterRow es ms mv mxs mr sm pt now v).isSome = true ↔
      (¬ v.views < mv
       ∧ Option.any (fun s => decide (mxs < s)) (subsOf sm v) = false
       ∧ Option.any (fun x => decide (x < mr)) (ratioOf (subsOf sm v) v.views) = false) := by
  unfold filterRow
  rw [if_neg hgate]
  by_cases h1 : v.views < mv
  · simp [h1]
  · by_cases h2 : Option.any (fun s => decide (mxs < s)) (subsOf sm v) = true
    · simp [h1, h2]
    · by_cases h3 : Option.any (fun x => decide (x < mr)) (ratioOf (subsOf sm v) v.views) = true
      · simp [h1, h2, h3]
      · simp [h1, h2, h3]

/-- C6: once a resolved video passes the shorts gate, it is kept iff all
three inclusion filters pass: `views >= min_views`, `subs is None or
subs <= max_subs`, `ratio is None or ratio >= min_ratio`; consequently a
row with unknown subscriber count has an undefined ratio and survives
both the `max_subs` filter and any `min_ratio` filter. -/
theorem claim_C6 :
    ∀ (exclude_shorts : Bool) (min_seconds min_views max_subs : ℤ) (min_ratio : ℚ)
      (subs_map : Dict (Option ℤ)) (parseTs : String → ℚ) (now : ℚ) (v : Video),
    ¬(exclude_shorts = true ∧ (iso_duration_to_seconds v.duration_iso : ℤ) < min_seconds) →
    ((filterRow exclude_shorts min_seconds min_views max_subs min_ratio subs_map
        parseTs now v).isSome = true
      ↔ (min_views ≤ v.views
         ∧ (subsOf subs_map v = none ∨ ∃ sv, subsOf subs_map v = some sv ∧ sv ≤ max_subs)
         ∧ (ratioOf (subsOf subs_map v) v.views = none
            ∨ ∃ rv, ratioOf (subsOf subs_map v) v.views = some rv ∧ min_ratio ≤ rv)))
    ∧ (subsOf subs_map v = none →
        ratioOf (subsOf subs_map v) v.views = none
        ∧ ((filterRow exclude_shorts min_seconds min_views max_subs min_ratio subs_map
              parseTs now v).isSome = true
            ↔ min_views ≤ v.views)) := by
  intro es ms mv mxs mr sm pt now v hgate
  have hbase := filterRow_isSome_iff es ms mv mxs mr sm pt now v hgate
  have e1 : (¬ v.views < mv) ↔ mv ≤ v.views := not_lt
  have e2 : (Option.any (fun s => decide (mxs < s)) (subsOf sm v) = false)
      ↔ (subsOf sm v = none ∨ ∃ sv, subsOf sm v = some sv ∧ sv ≤ mxs) := by
    cases hS : subsOf sm v with
    | none => simp [Option.any]
    | some sv =>
      simp only [Option.any]
      constructor
      · intro hf
        right
        refine ⟨sv, rfl, ?_⟩
        have := of_decide_eq_false hf
        omega
      · rintro (h | ⟨sv', hsv, hle⟩)
        · exact Option.noConfusion h
        · injection hsv with h'
          subst h'
          exact decide_eq_false (not_lt.2 hle)
  have e3 : (Option.any (fun x => decide (x < mr)) (ratioOf (subsOf sm v) v.views) = false)
      ↔ (ratioOf (subsOf sm v) v.views = none
         ∨ ∃ rv, ratioOf (subsOf sm v) v.views = some rv ∧ mr ≤ rv) := by
    cases hR : ratioOf (subsOf sm v) v.views with
    | none => simp [Option.any]
    | some rv =>
      simp only [Option.any]
      constructor
      · intro hf
        right
        exact ⟨rv, rfl, not_lt.1 (of_decide_eq_false hf)⟩
      · rintro (h | ⟨rv', hrv, hle⟩)
        · exact Option.noConfusion h
        · injection hrv with h'
          subst h'
          exact decide_eq_false (not_lt.2 hle)
  constructor
  · rw [hbase]
    exact and_congr e1 (and_congr e2 e3)
  · intro hS
    have hR : ratioOf (subsOf sm v) v.views = none := by rw [hS]; rfl
    refine ⟨hR, ?_⟩
    rw [hbase, hR, hS]
    simp [Option.any, not_lt]

/-- Witness for C6: a video with unknown subscriber count (empty channel
id, so `subs_map` lookup yields `None`) passes the shorts gate and
survives the `max_subs` and `min_ratio = 3` filters; it is kept iff its
views meet `min_views`. -/
theorem claim_C6_witness :
    ratioOf (subsOf [] (exVideo "v1")) (exVideo "v1").views = none
    ∧ ((filterRow false 120 0 10000 3 [] (fun _ => 0) 0 (exVideo "v1")).isSome = true
        ↔ (0 : ℤ) ≤ (exVideo "v1").views) :=
  (claim_C6 false 120 0 10000 3 [] (fun _ => 0) 0 (exVideo "v1")
    (by intro h; exact absurd h.1 (by decide))).2 rfl

/-- C2: a cached video record with fetch timestamp `T`, requested with
freshness window `H` hours, is returned by `get_cached_videos` iff
`now - T <= H * 3600` (boundary inclusive, so a record one second past
the boundary is excluded), and the fresh lookup returns exactly the
stored payload; the same holds for `get_cached_subs`.  The reads are
pure (`SELECT` only), so stale rows remain in storage. -/
theorem claim_C2 : ∀ (σ : CacheState) (ids : List String) (H : ℤ) (now : ℚ),
    ((σ.videos.map Prod.fst).Nodup →
      ∀ vid ∈ ids, ∀ row : Row, dlookup σ.videos vid = some row →
        (((dlookup (get_cached_videos σ ids H now) vid).isSome = true
            ↔ now - row.fetched_at ≤ (H : ℚ) * 3600)
         ∧ (now - row.fetched_at ≤ (H : ℚ) * 3600 →
             dlookup (get_cached_videos σ ids H now) vid = some (rowToVideo vid row))))
    ∧ ((σ.channels.map Prod.fst).Nodup →
      ∀ cid ∈ ids, ∀ c : Option ℤ × ℚ, dlookup σ.channels cid = some c →
        (((dlookup (get_cached_subs σ ids H now) cid).isSome = true
            ↔ now - c.2 ≤ (H : ℚ) * 3600)
         ∧ (now - c.2 ≤ (H : ℚ) * 3600 →
             dlookup (get_cached_subs σ ids H now) cid = some c.1))) := by
  intro σ ids H now
  constructor
  · intro hn vid hmem row hrow
    have hchar : dlookup (get_cached_videos σ ids H now) vid =
        if vid ∈ ids ∧ now - (H : ℚ) * 3600 ≤ row.fetched_at then some (rowToVideo vid row)
        else none := by
      rw [dlookup_get_cached_videos hn ids H now vid, hrow]
      rfl
    constructor
    · rw [hchar]
      by_cases hf : now - (H : ℚ) * 3600 ≤ row.fetched_at
      · rw [if_pos ⟨hmem, hf⟩]
        exact iff_of_true rfl (by linarith)
      · rw [if_neg (fun hc => hf hc.2)]
        exact iff_of_false (by simp) (fun hc => hf (by linarith))
    · intro hf
      rw [hchar, if_pos ⟨hmem, by linarith⟩]
  · intro hn cid hmem c hc
    have hchar : dlookup (get_cached_subs σ ids H now) cid =
        if cid ∈ ids ∧ now - (H : ℚ) * 3600 ≤ c.2 then some c.1 else none := by
      rw [dlookup_get_cached_subs hn ids H now cid, hc]
      rfl
    constructor
    · rw [hchar]
      by_cases hf : now - (H : ℚ) * 3600 ≤ c.2
      · rw [if_pos ⟨hmem, hf⟩]
        exact iff_of_true rfl (by linarith)
      · rw [if_neg (fun hcc => hf hcc.2)]
        exact iff_of_false (by simp) (fun hcc => hf (by linarith))
    · intro hf
      rw [hchar, if_pos ⟨hmem, by linarith⟩]

/-- Witness for C2: a concrete one-row store fetched at time 0, read at
time 0 with a 0-hour window, sits exactly on the inclusive boundary and
is returned with its stored payload. -/
theorem claim_C2_witness :
    ((dlookup (get_cached_videos
          ⟨[("v1", itemToRow (exVideo "v1") 0)], []⟩ ["v1"] 0 0) "v1").isSome = true
      ↔ (0 : ℚ) - (itemToRow (exVideo "v1") 0).fetched_at ≤ ((0 : ℤ) : ℚ) * 3600)
    ∧ ((0 : ℚ) - (itemToRow (exVideo "v1") 0).fetched_at ≤ ((0 : ℤ) : ℚ) * 3600 →
        dlookup (get_cached_videos ⟨[("v1", itemToRow (exVideo "v1") 0)], []⟩ ["v1"] 0 0) "v1"
          = some (rowToVideo "v1" (itemToRow (exVideo "v1") 0))) :=
  (claim_C2 ⟨[("v1", itemToRow (exVideo "v1") 0)], []⟩ ["v1"] 0 0).1
    (by simp) "v1" (by simp) (itemToRow (exVideo "v1") 0) rfl

/-- C9: `upsert_videos_cache` is idempotent by primary key: upserting
the same items twice leaves every `get_cached_videos` lookup (for any
window `H >= 0`) identical to a single upsert at the later time; and
each upserted item's stored `fetched_at` is refreshed to the upsert
time, whether or not the payload changed. -/
theorem claim_C9 : ∀ (σ : CacheState) (items : List Video) (t1 t2 : ℚ) (ids : List String)
    (H : ℤ) (now : ℚ), (σ.videos.map Prod.fst).Nodup → 0 ≤ H →
    (∀ k, dlookup (get_cached_videos
          (upsert_videos_cache (upsert_videos_cache σ items t1) items t2) ids H now) k
        = dlookup (get_cached_videos (upsert_videos_cache σ items t2) ids H now) k)
    ∧ ∀ it ∈ items, ∃ row : Row,
        dlookup (upsert_videos_cache σ items t2).videos it.videoId = some row
        ∧ row.fetched_at = t2 := by
  intro σ items t1 t2 ids H now hn hH
  have hn1 : ((upsert_videos_cache σ items t1).videos.map Prod.fst).Nodup :=
    nodupKeys_upsertList _ _ items σ.videos hn
  have hn12 : ((upsert_videos_cache (upsert_videos_cache σ items t1) items t2).videos.map
      Prod.fst).Nodup := nodupKeys_upsertList _ _ items _ hn1
  have hn2 : ((upsert_videos_cache σ items t2).videos.map Prod.fst).Nodup :=
    nodupKeys_upsertList _ _ items σ.videos hn
  constructor
  · intro k
    rw [dlookup_get_cached_videos hn12 ids H now k, dlookup_get_cached_videos hn2 ids H now k]
    simp only [upsert_videos_cache, dlookup_upsertList]
    cases hl : lastBy? Video.videoId items k <;> simp [hl]
  · intro it hit
    have hsome : (lastBy? Video.videoId items it.videoId).isSome = true :=
      (lastBy?_isSome_iff Video.videoId items it.videoId).2 ⟨it, hit, rfl⟩
    rcases Option.isSome_iff_exists.1 hsome with ⟨b, hb⟩
    have h2 := dlookup_upsertList Video.videoId (fun it => itemToRow it t2) items σ.videos
      it.videoId
    rw [hb] at h2
    exact ⟨itemToRow b t2, h2, rfl⟩

/-- Witness for C9 at a concrete store, item list and times. -/
theorem claim_C9_witness :
    (∀ k, dlookup (get_cached_videos
          (upsert_videos_cache (upsert_videos_cache ⟨[], []⟩ [exVideo "v1"] 1) [exVideo "v1"] 2)
          ["v1"] 0 0) k
        = dlookup (get_cached_videos (upsert_videos_cache ⟨[], []⟩ [exVideo "v1"] 2)
          ["v1"] 0 0) k)
    ∧ ∀ it ∈ [exVideo "v1"], ∃ row : Row,
        dlookup (upsert_videos_cache ⟨[], []⟩ [exVideo "v1"] 2).videos it.videoId = some row
        ∧ row.fetched_at = 2 :=
  claim_C9 ⟨[], []⟩ [exVideo "v1"] 1 2 ["v1"] 0 0 (by simp) (by decide)

theorem collectCategories_foldl (chart : Option String → Except HErr (List String)) :
    ∀ (sel : List String) (a : List String × List CallRec),
    sel.foldl (fun acc cid =>
        match chart (some cid) with
        | .ok ids => (acc.1 ++ dedupFirst ids, acc.2 ++ [CallRec.chart (some cid)])
        | .error _ => (acc.1, acc.2 ++ [CallRec.chart (some cid)])) a
      = (a.1 ++ (sel.map (chartIds chart)).flatten,
         a.2 ++ sel.map (fun c => CallRec.chart (some c))) := by
  intro sel
  induction sel with
  | nil => intro a; simp
  | cons c rest ih =>
    intro a
    rw [List.foldl_cons]
    cases hc : chart (some c) with
    | ok l => rw [ih]; simp [chartIds, hc]
    | error e => rw [ih]; simp [chartIds, hc]

theorem collectCategories_eq (chart : Option String → Except HErr (List String))
    (sel : List String) :
    collectCategories chart sel
      = ((sel.map (chartIds chart)).flatten, sel.map (fun c => CallRec.chart (some c))) := by
  unfold collectCategories
  rw [collectCategories_foldl]
  simp

/-- C4: the per-category collection loop is total (it returns a plain
pair, no exception escapes): its result is the concatenation, in
category order, of each non-failing category's ids (a failing category
contributes nothing, and its chart call is still logged); in particular
for categories `[A, B, C]` with `B` raising, the result is the union of
`A`'s and `C`'s ids. -/
theorem claim_C4 :
    (∀ (chart : Option String → Except HErr (List String)) (sel : List String),
      collectCategories chart sel
        = ((sel.map (chartIds chart)).flatten, sel.map (fun c => CallRec.chart (some c))))
    ∧ ∀ (chart : Option String → Except HErr (List String)) (la lc : List String) (e : HErr),
        chart (some "A") = .ok la → chart (some "B") = .error e → chart (some "C") = .ok lc →
        (collectCategories chart ["A", "B", "C"]).1 = dedupFirst la ++ dedupFirst lc
        ∧ (∀ x, x ∈ (collectCategories chart ["A", "B", "C"]).1 ↔ x ∈ la ∨ x ∈ lc)
        ∧ (collectCategories chart ["A", "B", "C"]).2
            = [CallRec.chart (some "A"), CallRec.chart (some "B"), CallRec.chart (some "C")] := by
  refine ⟨collectCategories_eq, ?_⟩
  intro chart la lc e hA hB hC
  have h1 : (collectCategories chart ["A", "B", "C"]).1 = dedupFirst la ++ dedupFirst lc := by
    rw [collectCategories_eq]
    simp [chartIds, hA, hB, hC]
  refine ⟨h1, ?_, ?_⟩
  · intro x
    rw [h1, List.mem_append, mem_dedupFirst, mem_dedupFirst]
  · rw [collectCategories_eq]
    rfl

/-- Witness for C4 at the concrete failing-middle-category oracle
`exChart`. -/
theorem claim_C4_witness :
    (collectCategories exChart ["A", "B", "C"]).1
        = dedupFirst ["v1", "v2"] ++ dedupFirst ["v2", "v3"]
    ∧ (∀ x, x ∈ (collectCategories exChart ["A", "B", "C"]).1
        ↔ x ∈ ["v1", "v2"] ∨ x ∈ ["v2", "v3"])
    ∧ (collectCategories exChart ["A", "B", "C"]).2
        = [CallRec.chart (some "A"), CallRec.chart (some "B"), CallRec.chart (some "C")] :=
  claim_C4.2 exChart ["v1", "v2"] ["v2", "v3"] errQuota rfl rfl rfl

/-- C8 (amended): for every resolved video carrying a publish timestamp,
`views_per_day = views / age_days` is defined, with
`age_days = max(elapsed days, 0.1) >= 0.1`, and every emitted row stores
exactly that quotient; a video with an empty publish timestamp instead
gets `views_per_day = None` (see the counterexample). -/
theorem claim_C8 : ∀ (parseTs : String → ℚ) (now : ℚ) (v : Video),
    v.publishedAt ≠ "" →
    vpdOf parseTs now v = some ((v.views : ℚ) / age_days parseTs now v.publishedAt)
    ∧ (1 / 10 : ℚ) ≤ age_days parseTs now v.publishedAt
    ∧ ∀ (es : Bool) (ms mv mxs : ℤ) (mr : ℚ) (sm : Dict (Option ℤ)) (row : OutRow),
        filterRow es ms mv mxs mr sm parseTs now v = some row →
        row.views_per_day = some ((v.views : ℚ) / age_days parseTs now v.publishedAt) := by
  intro pt now v hne
  have hfloor : (1 / 10 : ℚ) ≤ age_days pt now v.publishedAt := le_max_right _ _
  have hpos : (0 : ℚ) < age_days pt now v.publishedAt :=
    lt_of_lt_of_le (by norm_num) hfloor
  have hd : daysOf pt now v = some (age_days pt now v.publishedAt) := by
    rw [daysOf, if_neg hne]
  have hvpd : vpdOf pt now v = some ((v.views : ℚ) / age_days pt now v.publishedAt) := by
    unfold vpdOf
    rw [hd]
    simp [hpos.ne']
  refine ⟨hvpd, hfloor, ?_⟩
  intro es ms mv mxs mr sm row hrow
  unfold filterRow at hrow
  by_cases h0 : es = true ∧ (iso_duration_to_seconds v.duration_iso : ℤ) < ms
  · rw [if_pos h0] at hrow
    cases hrow
  · rw [if_neg h0] at hrow
    by_cases h1 : v.views < mv
    · rw [if_pos h1] at hrow
      cases hrow
    · rw [if_neg h1] at hrow
      by_cases h2 : Option.any (fun s => decide (mxs < s)) (subsOf sm v) = true
      · rw [if_pos h2] at hrow
        cases hrow
      · rw [if_neg h2] at hrow
        by_cases h3 : Option.any (fun x => decide (x < mr))
            (ratioOf (subsOf sm v) v.views) = true
        · rw [if_pos h3] at hrow
          cases hrow
        · rw [if_neg h3] at hrow
          cases hrow
          exact hvpd

/-- Counterexample to C8 as stated: a resolved video with an empty
publish timestamp reaches the derive step, is emitted as a row, and its
`views_per_day` is `None`, not `views / age_days`. -/
theorem claim_C8_counterexample :
    (exVideo "x").publishedAt = ""
    ∧ (filterRow false 0 0 0 0 [] (fun _ => 0) 0 (exVideo "x")).isSome = true
    ∧ (filterRow false 0 0 0 0 [] (fun _ => 0) 0 (exVideo "x")).map OutRow.views_per_day
        = some none :=
  ⟨rfl, by decide, by decide⟩

/-- Witness for C8 at a concrete dated video. -/
theorem claim_C8_witness :
    vpdOf (fun _ => 0) 0 exVideoDated
        = some ((exVideoDated.views : ℚ) / age_days (fun _ => 0) 0 exVideoDated.publishedAt)
    ∧ (1 / 10 : ℚ) ≤ age_days (fun _ => 0) 0 exVideoDated.publishedAt
    ∧ ∀ (es : Bool) (ms mv mxs : ℤ) (mr : ℚ) (sm : Dict (Option ℤ)) (row : OutRow),
        filterRow es ms mv mxs mr sm (fun _ => 0) 0 exVideoDated = some row →
        row.views_per_day
          = some ((exVideoDated.views : ℚ) / age_days (fun _ => 0) 0 exVideoDated.publishedAt) :=
  claim_C8 (fun _ => 0) 0 exVideoDated (by decide)

/-- Counterexample to C3 as stated: in category mode, a quota error
(403) raised by one category's chart call does NOT abort the scan — the
call is made (it is in the log), the error is swallowed by the
per-category `except HttpError: continue`, the scan finishes with no
error surfaced and produces result rows. -/
theorem claim_C3_counterexample :
    exChart (some "B") = .error errQuota
    ∧ errQuota.status = 403
    ∧ CallRec.chart (some "B") ∈ (runScan exParamsCat exOracles ⟨[], []⟩).calls
    ∧ (runScan exParamsCat exOracles ⟨[], []⟩).errors = []
    ∧ (runScan exParamsCat exOracles ⟨[], []⟩).rows ≠ [] :=
  ⟨rfl, rfl, by decide, by decide, by decide⟩

/-- C3 (amended): a quota or generic remote error raised outside the
per-category collection loop is fatal for the scan — (i) a failing
single-mode chart call, (ii) a failing video-details fetch and (iii) a
failing channel-statistics fetch each abort with no rows, the raw
diagnostic `http_error_text e` surfaced, and the failed call issued
exactly once (never retried); (iv) a resolution-phase error always
surfaces as the aborted result; but (v) inside the per-category
collection loop any `HttpError` — including a quota error — is caught,
the category is skipped, and the scan continues: chart errors never
abort a category-mode scan. -/
theorem claim_C3 :
    (∀ (p : Params) (o : Oracles) (σ : CacheState) (e : HErr),
      p.scan_by_categories = false → o.chart none = .error e →
      runScan p o σ = { errors := [http_error_text e], video_ids := [], rows := [],
                        state := σ, calls := [CallRec.chart none] })
    ∧ (∀ (σ : CacheState) (video_ids : List String) (Hv Hc : ℤ) (now : ℚ)
        (fetchV : List String → Except HErr (List Video))
        (fetchC : List String → Except HErr (Dict (Option ℤ)))
        (e : HErr) (missing_v : List String),
      missing_v = video_ids.filter
        (fun vid => ! containsKey (get_cached_videos σ video_ids Hv now) vid) →
      missing_v ≠ [] → fetchV missing_v = .error e →
      resolvePhase σ video_ids Hv Hc now fetchV fetchC =
        { err := some e, vids := [], subs_map := [], state := σ,
          calls := [CallRec.videos missing_v] })
    ∧ (∀ (σ1 : CacheState) (all_v : Dict Video) (Hc : ℤ) (now : ℚ)
        (fetchC : List String → Except HErr (Dict (Option ℤ)))
        (calls0 : List CallRec) (e : HErr) (channel_ids missing_c : List String),
      channel_ids = dedupFirst ((all_v.map Prod.snd).filterMap
        (fun v => if v.channelId = "" then none else some v.channelId)) →
      missing_c = channel_ids.filter
        (fun cid => ! containsKey (get_cached_subs σ1 channel_ids Hc now) cid) →
      missing_c ≠ [] → fetchC missing_c = .error e →
      resolveChannels σ1 all_v Hc now fetchC calls0 =
        { err := some e, vids := [], subs_map := [], state := σ1,
          calls := calls0 ++ [CallRec.channels missing_c] })
    ∧ (∀ (p : Params) (o : Oracles) (σ : CacheState) (raw : List String)
        (log : List CallRec) (e : HErr),
      (resolvePhase σ (dedupCap raw p.max_candidates) p.video_cache_hours
        p.channel_cache_hours o.now o.fetchVideos o.fetchChannels).err = some e →
      scanAfterAcquire p o σ raw log =
        { errors := [http_error_text e], video_ids := dedupCap raw p.max_candidates,
          rows := [],
          state := (resolvePhase σ (dedupCap raw p.max_candidates) p.video_cache_hours
            p.channel_cache_hours o.now o.fetchVideos o.fetchChannels).state,
          calls := log ++ (resolvePhase σ (dedupCap raw p.max_candidates) p.video_cache_hours
            p.channel_cache_hours o.now o.fetchVideos o.fetchChannels).calls })
    ∧ (∀ (p : Params) (o : Oracles) (σ : CacheState),
      p.scan_by_categories = true →
      (resolvePhase σ (dedupCap (collectCategories o.chart p.selected_ids).1 p.max_candidates)
        p.video_cache_hours p.channel_cache_hours o.now o.fetchVideos o.fetchChannels).err
        = none →
      (runScan p o σ).errors = []) := by
  refine ⟨?_, ?_, ?_, ?_, ?_⟩
  · intro p o σ e h1 h2
    unfold runScan
    rw [if_neg (by rw [h1]; exact Bool.false_ne_true), h2]
  · intro σ video_ids Hv Hc now fetchV fetchC e missing_v hdef hne hfetch
    unfold resolvePhase
    dsimp only
    rw [← hdef, if_neg (fun hemp => hne (List.isEmpty_iff.1 hemp)), hfetch]
  · intro σ1 all_v Hc now fetchC calls0 e channel_ids missing_c hcdef hmdef hne hfetch
    unfold resolveChannels
    dsimp only
    rw [← hcdef, ← hmdef, if_neg (fun hemp => hne (List.isEmpty_iff.1 hemp)), hfetch]
  · intro p o σ raw log e hE
    unfold scanAfterAcquire
    dsimp only
    rw [hE]
  · intro p o σ h1 hE
    unfold runScan
    rw [if_pos h1]
    unfold scanAfterAcquire
    dsimp only
    rw [hE]

/-- Witness for C3 at concrete input: a single-mode scan whose chart
call fails with the quota error aborts with exactly that diagnostic,
no rows, and the one chart call. -/
theorem claim_C3_witness :
    runScan exParamsSingle exOraclesFail ⟨[], []⟩
      = { errors := [http_error_text errQuota], video_ids := [], rows := [],
          state := ⟨[], []⟩, calls := [CallRec.chart none] } :=
  claim_C3.1 exParamsSingle exOraclesFail ⟨[], []⟩ errQuota rfl rfl

theorem resolve_fresh (σ : CacheState) (video_ids : List String) (Hv Hc : ℤ) (now : ℚ)
    (fetchV : List String → Except HErr (List Video))
    (fetchC : List String → Except HErr (Dict (Option ℤ)))
    (h1 : ∀ vid ∈ video_ids, ∃ row : Row, (vid, row) ∈ σ.videos
          ∧ now - (Hv : ℚ) * 3600 ≤ row.fetched_at)
    (h2 : ∀ x ∈ get_cached_videos σ video_ids Hv now, x.2.channelId ≠ "" →
          ∃ c : Option ℤ × ℚ, (x.2.channelId, c) ∈ σ.channels ∧ now - (Hc : ℚ) * 3600 ≤ c.2) :
    video_ids.filter (fun vid => ! containsKey (get_cached_videos σ video_ids Hv now) vid) = []
    ∧ (resolvePhase σ video_ids Hv Hc now fetchV fetchC).calls = []
    ∧ (resolvePhase σ video_ids Hv Hc now fetchV fetchC).err = none
    ∧ (resolvePhase σ video_ids Hv Hc now fetchV fetchC).state = σ := by
  have hmiss : video_ids.filter
      (fun vid => ! containsKey (get_cached_videos σ video_ids Hv now) vid) = [] := by
    apply List.filter_eq_nil_iff.2
    intro vid hv
    obtain ⟨row, hmem, hfresh⟩ := h1 vid hv
    have hck : containsKey (get_cached_videos σ video_ids Hv now) vid = true :=
      (containsKey_iff _ _).2
        ⟨rowToVideo vid row, mem_get_videos.2 ⟨(vid, row), hmem, ⟨hv, hfresh⟩, rfl⟩⟩
    simp [hck]
  have hmissC : (dedupFirst (((get_cached_videos σ video_ids Hv now).map Prod.snd).filterMap
        (fun v => if v.channelId = "" then none else some v.channelId))).filter
      (fun cid => ! containsKey (get_cached_subs σ
        (dedupFirst (((get_cached_videos σ video_ids Hv now).map Prod.snd).filterMap
          (fun v => if v.channelId = "" then none else some v.channelId))) Hc now) cid)
      = [] := by
    apply List.filter_eq_nil_iff.2
    intro cid hcid
    have hcid2 : cid ∈ ((get_cached_videos σ video_ids Hv now).map Prod.snd).filterMap
        (fun v => if v.channelId = "" then none else some v.channelId) :=
      (mem_dedupFirst _ _).1 hcid
    obtain ⟨v, hvmem, hvpred⟩ := List.mem_filterMap.1 hcid2
    obtain ⟨x, hxmem, hxv⟩ := List.mem_map.1 hvmem
    by_cases hvc : v.channelId = ""
    · rw [if_pos hvc] at hvpred
      cases hvpred
    · rw [if_neg hvc] at hvpred
      have hvcid : v.channelId = cid := Option.some.inj hvpred
      obtain ⟨c, hcmem, hcfresh⟩ := h2 x hxmem (by rw [hxv, hvcid]; exact hvcid ▸ hvc)
      have hck : containsKey (get_cached_subs σ
          (dedupFirst (((get_cached_videos σ video_ids Hv now).map Prod.snd).filterMap
            (fun v => if v.channelId = "" then none else some v.channelId))) Hc now) cid
          = true := by
        apply (containsKey_iff _ _).2
        refine ⟨c.1, mem_get_subs.2 ⟨(cid, c), ?_, ⟨hcid, ?_⟩, rfl⟩⟩
        · rw [← hvcid, ← hxv]
          exact hcmem
        · exact hcfresh
      rw [hck]
      simp
  have hemp : (video_ids.filter
      (fun vid => ! containsKey (get_cached_videos σ video_ids Hv now) vid)).isEmpty = true := by
    rw [hmiss]
    rfl
  have hempC : ((dedupFirst (((get_cached_videos σ video_ids Hv now).map Prod.snd).filterMap
        (fun v => if v.channelId = "" then none else some v.channelId))).filter
      (fun cid => ! containsKey (get_cached_subs σ
        (dedupFirst (((get_cached_videos σ video_ids Hv now).map Prod.snd).filterMap
          (fun v => if v.channelId = "" then none else some v.channelId))) Hc now) cid)).isEmpty
      = true := by
    rw [hmissC]
    rfl
  have hres : resolvePhase σ video_ids Hv Hc now fetchV fetchC
      = { err := none, vids := (get_cached_videos σ video_ids Hv now).map Prod.snd,
          subs_map := dictUnion (get_cached_subs σ
            (dedupFirst (((get_cached_videos σ video_ids Hv now).map Prod.snd).filterMap
              (fun v => if v.channelId = "" then none else some v.channelId))) Hc now) [],
          state := σ, calls := [] } := by
    unfold resolvePhase
    dsimp only
    rw [if_pos hemp,
      show dictUnion (get_cached_videos σ video_ids Hv now) (keyByVideoId [])
        = get_cached_videos σ video_ids Hv now from rfl]
    unfold resolveChannels
    dsimp only
    rw [if_pos hempC]
  exact ⟨hmiss, by rw [hres], by rw [hres], by rw [hres]⟩

theorem post_state_fresh (video_ids : List String) (Hv Hc : ℤ) (now1 : ℚ)
    (fetchV : List String → Except HErr (List Video))
    (fetchC : List String → Except HErr (Dict (Option ℤ)))
    (hFV : ∀ l, ∃ items, fetchV l = .ok items ∧ ∀ vid ∈ l, ∃ it ∈ items, it.videoId = vid)
    (hFC : ∀ l, ∃ out, fetchC l = .ok out ∧ ∀ cid ∈ l, containsKey out cid = true) :
    (∀ vid ∈ video_ids, ∃ row : Row,
        (vid, row) ∈ (resolvePhase ⟨[], []⟩ video_ids Hv Hc now1 fetchV fetchC).state.videos
        ∧ row.fetched_at = now1)
    ∧ (∀ (Hv2 : ℤ) (now2 : ℚ),
        ∀ x ∈ get_cached_videos (resolvePhase ⟨[], []⟩ video_ids Hv Hc now1 fetchV fetchC).state
            video_ids Hv2 now2,
        x.2.channelId ≠ "" →
        ∃ c : Option ℤ × ℚ,
          (x.2.channelId, c)
            ∈ (resolvePhase ⟨[], []⟩ video_ids Hv Hc now1 fetchV fetchC).state.channels
          ∧ c.2 = now1) := by
  by_cases hids : video_ids = []
  · subst hids
    have hst : (resolvePhase ⟨[], []⟩ [] Hv Hc now1 fetchV fetchC).state
        = (⟨[], []⟩ : CacheState) := rfl
    constructor
    · intro vid hv
      simp at hv
    · intro Hv2 now2 x hx hne
      rw [hst] at hx
      have hget : get_cached_videos ⟨[], []⟩ [] Hv2 now2 = [] := rfl
      rw [hget] at hx
      simp at hx
  · obtain ⟨items, hfV, hcovV⟩ := hFV video_ids
    have hcached1 : get_cached_videos ⟨[], []⟩ video_ids Hv now1 = [] := rfl
    have hfilter1 : video_ids.filter (fun vid => ! containsKey ([] : Dict Video) vid)
        = video_ids := List.filter_eq_self.2 (fun a _ => rfl)
    have hres1 : resolvePhase ⟨[], []⟩ video_ids Hv Hc now1 fetchV fetchC
        = resolveChannels (upsert_videos_cache ⟨[], []⟩ items now1)
            (dictUnion [] (keyByVideoId items)) Hc now1 fetchC [CallRec.videos video_ids] := by
      unfold resolvePhase
      dsimp only
      rw [hcached1, hfilter1, if_neg (fun hemp => hids (List.isEmpty_iff.1 hemp)), hfV]
    have hkeysKB : ((keyByVideoId items).map Prod.fst).Nodup :=
      nodupKeys_upsertList _ _ items [] (by simp)
    have hAll : dictUnion ([] : Dict Video) (keyByVideoId items) = keyByVideoId items :=
      dictUnion_nil _ hkeysKB
    rw [hAll] at hres1
    have hTn : ((upsertList Video.videoId (fun x => itemToRow x now1) items
        ([] : Dict Row)).map Prod.fst).Nodup := nodupKeys_upsertList _ _ items [] (by simp)
    have hS1T : ∀ vid ∈ video_ids, ∃ row : Row,
        (vid, row) ∈ upsertList Video.videoId (fun x => itemToRow x now1) items ([] : Dict Row)
        ∧ row.fetched_at = now1 := by
      intro vid hv
      obtain ⟨it, hitmem, hitid⟩ := hcovV vid hv
      have hsome : (lastBy? Video.videoId items vid).isSome = true :=
        (lastBy?_isSome_iff _ _ _).2 ⟨it, hitmem, hitid⟩
      obtain ⟨b, hb⟩ := Option.isSome_iff_exists.1 hsome
      have hlk := dlookup_upsertList Video.videoId (fun x => itemToRow x now1) items
        ([] : Dict Row) vid
      simp only [hb] at hlk
      exact ⟨itemToRow b now1, dlookup_mem hlk, rfl⟩
    have hchan_mem : ∀ (W : CacheState),
        W.videos = upsertList Video.videoId (fun x => itemToRow x now1) items [] →
        ∀ (Hv2 : ℤ) (now2 : ℚ), ∀ x ∈ get_cached_videos W video_ids Hv2 now2,
        x.2.channelId ≠ "" →
        x.2.channelId ∈ dedupFirst (((keyByVideoId items).map Prod.snd).filterMap
          (fun v => if v.channelId = "" then none else some v.channelId)) := by
      intro W hW Hv2 now2 x hx hne
      obtain ⟨p, hpmem, hcond, hxeq⟩ := mem_get_videos.1 hx
      rw [hW] at hpmem
      have hlkp : dlookup (upsertList Video.videoId (fun x => itemToRow x now1) items
          ([] : Dict Row)) p.1 = some p.2 := dlookup_of_mem_nodup hTn hpmem
      have hlkp2 := dlookup_upsertList Video.videoId (fun x => itemToRow x now1) items
        ([] : Dict Row) p.1
      cases hl : lastBy? Video.videoId items p.1 with
      | none =>
        simp only [hl] at hlkp2
        rw [hlkp] at hlkp2
        simp [dlookup] at hlkp2
      | some b =>
        simp only [hl] at hlkp2
        rw [hlkp] at hlkp2
        have hp2 : p.2 = itemToRow b now1 := Option.some.inj hlkp2
        have hx2 : x.2 = rowToVideo p.1 p.2 := by rw [hxeq]
        have hxc : x.2.channelId = b.channelId := by rw [hx2, hp2]; rfl
        have hlkb := dlookup_upsertList Video.videoId (fun it => it) items
          ([] : Dict Video) p.1
        simp only [hl] at hlkb
        have hbmem : b ∈ (keyByVideoId items).map Prod.snd :=
          List.mem_map.2 ⟨(p.1, b), dlookup_mem hlkb, rfl⟩
        rw [hxc]
        apply (mem_dedupFirst _ _).2
        apply List.mem_filterMap.2
        refine ⟨b, hbmem, ?_⟩
        rw [if_neg (by rw [← hxc]; exact hne)]
    have hcachedC : ∀ ids', get_cached_subs (upsert_videos_cache ⟨[], []⟩ items now1)
        ids' Hc now1 = [] := fun _ => rfl
    have hfilterC : (dedupFirst (((keyByVideoId items).map Prod.snd).filterMap
          (fun v => if v.channelId = "" then none else some v.channelId))).filter
        (fun cid => ! containsKey (get_cached_subs (upsert_videos_cache ⟨[], []⟩ items now1)
          (dedupFirst (((keyByVideoId items).map Prod.snd).filterMap
            (fun v => if v.channelId = "" then none else some v.channelId))) Hc now1) cid)
        = dedupFirst (((keyByVideoId items).map Prod.snd).filterMap
            (fun v => if v.channelId = "" then none else some v.channelId)) := by
      apply List.filter_eq_self.2
      intro a _
      rw [hcachedC _]
      rfl
    by_cases hc0 : dedupFirst (((keyByVideoId items).map Prod.snd).filterMap
        (fun v => if v.channelId = "" then none else some v.channelId)) = []
    · have hresC : resolveChannels (upsert_videos_cache ⟨[], []⟩ items now1)
          (keyByVideoId items) Hc now1 fetchC [CallRec.videos video_ids]
          = { err := none, vids := (keyByVideoId items).map Prod.snd,
              subs_map := dictUnion (get_cached_subs (upsert_videos_cache ⟨[], []⟩ items now1)
                (dedupFirst (((keyByVideoId items).map Prod.snd).filterMap
                  (fun v => if v.channelId = "" then none else some v.channelId))) Hc now1) [],
              state := upsert_videos_cache ⟨[], []⟩ items now1,
              calls := [CallRec.videos video_ids] } := by
        unfold resolveChannels
        dsimp only
        rw [hfilterC, if_pos (by rw [hc0]; rfl)]
      have hstate : (resolvePhase ⟨[], []⟩ video_ids Hv Hc now1 fetchV fetchC).state
          = upsert_videos_cache ⟨[], []⟩ items now1 := by
        rw [hres1, hresC]
      constructor
      · intro vid hv
        obtain ⟨row, hmem, hfa⟩ := hS1T vid hv
        refine ⟨row, ?_, hfa⟩
        rw [hstate]
        exact hmem
      · intro Hv2 now2 x hx hne
        have hmemc := hchan_mem _ (by rw [hstate]; rfl) Hv2 now2 x hx hne
        rw [hc0] at hmemc
        exact absurd hmemc (List.not_mem_nil _)
    · obtain ⟨out, hfC, hcovC⟩ := hFC (dedupFirst (((keyByVideoId items).map Prod.snd).filterMap
        (fun v => if v.channelId = "" then none else some v.channelId)))
      have hresC : resolveChannels (upsert_videos_cache ⟨[], []⟩ items now1)
          (keyByVideoId items) Hc now1 fetchC [CallRec.videos video_ids]
          = { err := none, vids := (keyByVideoId items).map Prod.snd,
              subs_map := dictUnion (get_cached_subs (upsert_videos_cache ⟨[], []⟩ items now1)
                (dedupFirst (((keyByVideoId items).map Prod.snd).filterMap
                  (fun v => if v.channelId = "" then none else some v.channelId))) Hc now1) out,
              state := upsert_channels_cache (upsert_videos_cache ⟨[], []⟩ items now1) out now1,
              calls := [CallRec.videos video_ids]
                ++ [CallRec.channels (dedupFirst (((keyByVideoId items).map Prod.snd).filterMap
                    (fun v => if v.channelId = "" then none else some v.channelId)))] } := by
        unfold resolveChannels
        dsimp only
        rw [hfilterC, if_neg (fun hemp => hc0 (List.isEmpty_iff.1 hemp)), hfC]
      have hstate : (resolvePhase ⟨[], []⟩ video_ids Hv Hc now1 fetchV fetchC).state
          = upsert_channels_cache (upsert_videos_cache ⟨[], []⟩ items now1) out now1 := by
        rw [hres1, hresC]
      constructor
      · intro vid hv
        obtain ⟨row, hmem, hfa⟩ := hS1T vid hv
        refine ⟨row, ?_, hfa⟩
        rw [hstate]
        exact hmem
      · intro Hv2 now2 x hx hne
        have hmemc := hchan_mem _ (by rw [hstate]; rfl) Hv2 now2 x hx hne
        have hcov := hcovC _ hmemc
        obtain ⟨vq, hq⟩ := (containsKey_iff _ _).1 hcov
        have hsq : (lastBy? Prod.fst out x.2.channelId).isSome = true :=
          (lastBy?_isSome_iff _ _ _).2 ⟨(x.2.channelId, vq), hq, rfl⟩
        obtain ⟨q, hql⟩ := Option.isSome_iff_exists.1 hsq
        have hklq := dlookup_upsertList Prod.fst (fun p => (p.2, now1)) out
          (upsert_videos_cache ⟨[], []⟩ items now1).channels x.2.channelId
        simp only [hql] at hklq
        refine ⟨(q.2, now1), ?_, rfl⟩
        rw [hstate]
        exact dlookup_mem hklq

/-- C1: the cache-hit guarantee of the resolution phase.  First part:
if every requested video id has a fresh cache row and every channel id
referenced by the fresh-cached videos has a fresh channels row, then the
missing-id list is empty, the phase issues zero remote calls (neither
`fetch_videos_api` nor `fetch_channels_subs_api` is invoked; the call
log is empty), no error occurs and the state is untouched.  Second part
(repeat scans): starting from an empty cache, if the fetchers answer
and cover every id they are asked for, then a second resolution of the
same ids within both freshness windows issues zero remote calls. -/
theorem claim_C1 :
    (∀ (σ : CacheState) (video_ids : List String) (Hv Hc : ℤ) (now : ℚ)
        (fetchV : List String → Except HErr (List Video))
        (fetchC : List String → Except HErr (Dict (Option ℤ))),
      (∀ vid ∈ video_ids, ∃ row : Row, (vid, row) ∈ σ.videos
          ∧ now - (Hv : ℚ) * 3600 ≤ row.fetched_at) →
      (∀ x ∈ get_cached_videos σ video_ids Hv now, x.2.channelId ≠ "" →
          ∃ c : Option ℤ × ℚ, (x.2.channelId, c) ∈ σ.channels
            ∧ now - (Hc : ℚ) * 3600 ≤ c.2) →
      video_ids.filter
          (fun vid => ! containsKey (get_cached_videos σ video_ids Hv now) vid) = []
      ∧ (resolvePhase σ video_ids Hv Hc now fetchV fetchC).calls = []
      ∧ (resolvePhase σ video_ids Hv Hc now fetchV fetchC).err = none
      ∧ (resolvePhase σ video_ids Hv Hc now fetchV fetchC).state = σ)
    ∧ (∀ (video_ids : List String) (Hv Hc : ℤ) (now1 now2 : ℚ)
        (fetchV : List String → Except HErr (List Video))
        (fetchC : List String → Except HErr (Dict (Option ℤ))),
      (∀ l, ∃ items, fetchV l = .ok items ∧ ∀ vid ∈ l, ∃ it ∈ items, it.videoId = vid) →
      (∀ l, ∃ out, fetchC l = .ok out ∧ ∀ cid ∈ l, containsKey out cid = true) →
      now2 - now1 ≤ (Hv : ℚ) * 3600 → now2 - now1 ≤ (Hc : ℚ) * 3600 →
      (resolvePhase (resolvePhase ⟨[], []⟩ video_ids Hv Hc now1 fetchV fetchC).state
          video_ids Hv Hc now2 fetchV fetchC).calls = []
      ∧ (resolvePhase (resolvePhase ⟨[], []⟩ video_ids Hv Hc now1 fetchV fetchC).state
          video_ids Hv Hc now2 fetchV fetchC).err = none) := by
  constructor
  · intro σ video_ids Hv Hc now fetchV fetchC h1 h2
    exact resolve_fresh σ video_ids Hv Hc now fetchV fetchC h1 h2
  · intro video_ids Hv Hc now1 now2 fetchV fetchC hFV hFC hwv hwc
    obtain ⟨hS1, hS2⟩ := post_state_fresh video_ids Hv Hc now1 fetchV fetchC hFV hFC
    have h1' : ∀ vid ∈ video_ids, ∃ row : Row,
        (vid, row) ∈ (resolvePhase ⟨[], []⟩ video_ids Hv Hc now1 fetchV fetchC).state.videos
        ∧ now2 - (Hv : ℚ) * 3600 ≤ row.fetched_at := by
      intro vid hv
      obtain ⟨row, hmem, hfa⟩ := hS1 vid hv
      exact ⟨row, hmem, by rw [hfa]; linarith⟩
    have h2' : ∀ x ∈ get_cached_videos
        (resolvePhase ⟨[], []⟩ video_ids Hv Hc now1 fetchV fetchC).state video_ids Hv now2,
        x.2.channelId ≠ "" →
        ∃ c : Option ℤ × ℚ,
          (x.2.channelId, c)
            ∈ (resolvePhase ⟨[], []⟩ video_ids Hv Hc now1 fetchV fetchC).state.channels
          ∧ now2 - (Hc : ℚ) * 3600 ≤ c.2 := by
      intro x hx hne
      obtain ⟨c, hcm, hc2⟩ := hS2 Hv now2 x hx hne
      exact ⟨c, hcm, by rw [hc2]; linarith⟩
    obtain ⟨-, hcalls, herr, -⟩ := resolve_fresh _ video_ids Hv Hc now2 fetchV fetchC h1' h2'
    exact ⟨hcalls, herr⟩

/-- Witness for C1 at a concrete fully-fresh one-video cache: the
resolution phase issues zero remote calls. -/
theorem claim_C1_witness :
    ["v1"].filter (fun vid => ! containsKey (get_cached_videos exState ["v1"] 0 0) vid) = []
    ∧ (resolvePhase exState ["v1"] 0 0 0 exOracles.fetchVideos exOracles.fetchChannels).calls
        = []
    ∧ (resolvePhase exState ["v1"] 0 0 0 exOracles.fetchVideos exOracles.fetchChannels).err
        = none
    ∧ (resolvePhase exState ["v1"] 0 0 0 exOracles.fetchVideos exOracles.fetchChannels).state
        = exState :=
  claim_C1.1 exState ["v1"] 0 0 0 exOracles.fetchVideos exOracles.fetchChannels
    (by
      intro vid hv
      rw [List.mem_singleton] at hv
      subst hv
      refine ⟨exRow, by simp [exState], ?_⟩
      have hfa : exRow.fetched_at = 0 := rfl
      rw [hfa]
      simp)
    (by
      intro x hx hne
      obtain ⟨p, hp, hcond, hxeq⟩ := mem_get_videos.1 hx
      have hp2 : p = ("v1", exRow) := by
        have : exState.videos = [("v1", exRow)] := rfl
        rw [this] at hp
        simpa using hp
      subst hp2
      refine ⟨(some 5, 0), ?_, by simp⟩
      have hch : x.2.channelId = "ch1" := by
        rw [hxeq]
        rfl
      rw [hch]
      have : exState.channels = [("ch1", (some 5, 0))] := rfl
      rw [this]
      simp)

end App
